import Mathlib

/-!
Verification of the Hacker News scraper (src/scrapper.py) against its
natural-language specification.

The HTML documents that BeautifulSoup produces are modelled as a tree of
nodes; element search (find_all / find), attribute access and text
extraction mirror BeautifulSoup's observable behaviour on such trees.
Network I/O is modelled by an oracle mapping a URL to a fetch outcome, and
HTML parsing by an oracle mapping a raw body to a parsed document; the
pipeline functions are parameterised over both.  Python exceptions that a
source function catches internally become Option/empty results; exceptions
that escape a source function become an Except error value.
-/

/-- A node of a parsed HTML document: either an element with a tag name,
an attribute list and children, or a text node. -/
inductive Node where
  | elem (tag : String) (attrs : List (String × String)) (children : List Node) : Node
  | text (s : String) : Node

/-- Lookup of an attribute value in an attribute list (first match wins). -/
def attrLookup (attrs : List (String × String)) (key : String) : Option String :=
  match attrs with
  | [] => none
  | (k, v) :: rest => if k = key then some v else attrLookup rest key

/-- Attribute access on a node (models tag[key] up to the raised KeyError,
which callers turn into a caught-exception branch). Text nodes carry no
attributes. -/
def Node.attr (n : Node) (key : String) : Option String :=
  match n with
  | .elem _ attrs _ => attrLookup attrs key
  | .text _ => none

mutual
/-- Concatenated text of all descendant text nodes, in document order
(models BeautifulSoup's .text / get_text()). -/
def Node.textOf : Node → String
  | .text s => s
  | .elem _ _ cs => textOfList cs
/-- Concatenated text of a list of sibling nodes. -/
def textOfList : List Node → String
  | [] => ""
  | c :: cs => Node.textOf c ++ textOfList cs
end

/-- Whether a node is an element with the given tag name. -/
def Node.isTagB (name : String) (n : Node) : Bool :=
  match n with
  | .elem t _ _ => t = name
  | .text _ => false

/-- Helper for whitespace splitting, carrying the current word reversed:
models Python str.split() with no separator, which yields the maximal
nonempty runs of non-whitespace characters. -/
def wordsAux : List Char → List Char → List String
  | [], acc => if acc.isEmpty then [] else [String.mk acc.reverse]
  | c :: rest, acc =>
    if c.isWhitespace then
      if acc.isEmpty then wordsAux rest []
      else String.mk acc.reverse :: wordsAux rest []
    else wordsAux rest (c :: acc)

/-- A class attribute string split into individual class names, the way
BeautifulSoup splits multi-valued attributes (Python str.split()). -/
def splitClasses (raw : String) : List String :=
  wordsAux raw.toList []

/-- The class attribute split into individual class names (models
BeautifulSoup's multi-valued class handling); none when the node has no
class attribute. -/
def Node.classes (n : Node) : Option (List String) :=
  (n.attr "class").map splitClasses

/-- Whether a node matches a BeautifulSoup class filter string: the
string is one of the node's classes, or it equals the full attribute
value (BeautifulSoup's exact-string fallback for multi-class filters). -/
def Node.classMatch (c : String) (n : Node) : Bool :=
  match n.attr "class" with
  | none => false
  | some raw => decide (c ∈ splitClasses raw) || raw = c

mutual
/-- All descendant elements of a node satisfying a predicate, in
pre-order document order, the node itself excluded (models
Tag.find_all). -/
def Node.findAllIn : Node → (Node → Bool) → List Node
  | .text _, _ => []
  | .elem _ _ cs, p => findAllList cs p
/-- All elements satisfying a predicate in a sibling list and below, in
pre-order document order. -/
def findAllList : List Node → (Node → Bool) → List Node
  | [], _ => []
  | c :: cs, p => (if p c then [c] else []) ++ Node.findAllIn c p ++ findAllList cs p
end

/-- All descendant elements with the given tag name (models
tag.find_all(name)). -/
def Node.findAll (name : String) (n : Node) : List Node :=
  n.findAllIn (Node.isTagB name)

/-- First descendant element with the given tag name, if any (models
tag.find(name)). -/
def Node.find (name : String) (n : Node) : Option Node :=
  (n.findAll name).head?

/-- A parsed document: the list of root nodes of the tree BeautifulSoup
builds from the markup. -/
abbrev Doc := List Node

/-- All elements with the given tag name anywhere in a document, in
pre-order document order (models soup.find_all(name)). -/
def docFindAll (name : String) (doc : Doc) : List Node :=
  findAllList doc (Node.isTagB name)

/-- All elements with the given tag name and matching class anywhere in
a document (models soup.find_all(name, class_=c)). -/
def docFindAllClass (name : String) (c : String) (doc : Doc) : List Node :=
  findAllList doc (fun n => Node.isTagB name n && Node.classMatch c n)

/-- First element with the given tag name and matching class in a
document (models soup.find(name, class_=c)). -/
def docFindClass (name : String) (c : String) (doc : Doc) : Option Node :=
  (docFindAllClass name c doc).head?

/-- Python str.startswith, stated over the character lists so that it
computes by structural recursion. -/
def strStartsWith (p s : String) : Bool :=
  p.toList.isPrefixOf s.toList

/-- Python s[:-1]: the string with its final character removed (the
empty string stays empty). -/
def dropLastChar (s : String) : String :=
  String.mk s.toList.dropLast

/-- Leading and trailing whitespace removed, as CPython int() does
before parsing. -/
def trimChars (cs : List Char) : List Char :=
  ((cs.dropWhile Char.isWhitespace).reverse.dropWhile Char.isWhitespace).reverse

/-- Whether a list of characters consists of decimal digits only. -/
def allDigits (cs : List Char) : Bool :=
  cs.all Char.isDigit

/-- Numeric value of a list of decimal digit characters. -/
def natOfDigits (cs : List Char) : Nat :=
  cs.foldl (fun a c => a * 10 + (c.toNat - 48)) 0

/-- Models CPython int(str) on its common inputs: surrounding whitespace
is stripped, an optional single sign is followed by one or more ASCII
decimal digits; anything else (in particular the empty string) raises
ValueError, modelled as none. -/
def pyInt (s : String) : Option Int :=
  match trimChars s.toList with
  | [] => none
  | '+' :: rest =>
      if rest ≠ [] ∧ allDigits rest then some (natOfDigits rest) else none
  | '-' :: rest =>
      if rest ≠ [] ∧ allDigits rest then some (-(natOfDigits rest : Int)) else none
  | c :: rest =>
      if allDigits (c :: rest) then some (natOfDigits (c :: rest)) else none

/-- The site base URL prefixed to relative links, exactly the literal the
source interpolates in its f-strings. -/
def baseURL : String := "https://news.ycombinator.com/"

/-- A decoded story record as produced by parse_news_row: rank, title
and link. -/
structure ParsedNews where
  rank : Int
  title : String
  link : String
deriving Repr, DecidableEq

/-- Models parse_news_row: on a row carrying the athing class, read the
rank from the first td's text with its last character dropped, the title
and href from the anchor in the third td, prefixing the base URL onto
hrefs starting with item?id=; every exception path (missing class
attribute, missing cell, unparseable rank, missing anchor, missing href)
is caught and yields none. -/
def parse_news_row (row : Node) : Option ParsedNews :=
  match row.classes with
  | none => none
  | some cls =>
    if "athing" ∈ cls then
      match (Node.findAll "td" row).get? 0 with
      | none => none
      | some c0 =>
        match pyInt (dropLastChar (Node.textOf c0)) with
        | none => none
        | some rank =>
          match (Node.findAll "td" row).get? 2 with
          | none => none
          | some c2 =>
            match Node.find "a" c2 with
            | none => none
            | some a =>
              match a.attr "href" with
              | none => none
              | some href =>
                some ⟨rank, Node.textOf a,
                  if strStartsWith "item?id=" href then baseURL ++ href else href⟩
    else none

/-- Outcome of one HTTP GET as seen by the caller of requests.get: a
response carrying a status code and a body, or a transport-level failure
(DNS, connection, timeout), which requests raises as a
RequestException. -/
inductive FetchOutcome where
  | response (status : Nat) (body : String) : FetchOutcome
  | transportError (msg : String) : FetchOutcome

/-- A network oracle: what requests.get returns for each URL during one
run. -/
abbrev Net := String → FetchOutcome

/-- An HTML-parsing oracle: the document BeautifulSoup builds from a raw
body (parsing a string never raises). -/
abbrev Parse := String → Doc

/-- Models get_html_content: returns the response body, or none when the
transport fails or raise_for_status raises on a 4xx/5xx status (the
except branch catches RequestException and returns None). -/
def get_html_content (net : Net) (url : String) : Option String :=
  match net url with
  | .response status body =>
      if 400 ≤ status ∧ status < 600 then none else some body
  | .transportError _ => none

/-- Models the parsing part of extract_news_rows on an already-parsed
document: index the third table found anywhere in the document (the
IndexError when fewer than three exist is caught and yields []) and
return all tr elements below it. -/
def extract_news_rows_doc (doc : Doc) : List Node :=
  match (docFindAll "table" doc).get? 2 with
  | some newsTable => Node.findAll "tr" newsTable
  | none => []

/-- Models extract_news_rows on the value get_html_content hands it: a
None body makes BeautifulSoup raise a TypeError that the except
IndexError clause does not catch, so the call raises (error); a string
body is parsed and processed, never raising. -/
def extract_news_rows (parse : Parse) (html : Option String) :
    Except Unit (List Node) :=
  match html with
  | none => .error ()
  | some s => .ok (extract_news_rows_doc (parse s))

mutual
/-- Outermost table elements of a node and below: a table is collected
and not descended into, so tables nested inside another table are not
counted. Used to state the spec's notion of top-level tabular regions. -/
def topLevelTablesNode : Node → List Node
  | .text _ => []
  | .elem t a cs =>
      if t = "table" then [Node.elem t a cs] else topLevelTablesList cs
/-- Outermost table elements of a sibling list and below. -/
def topLevelTablesList : List Node → List Node
  | [] => []
  | c :: cs => topLevelTablesNode c ++ topLevelTablesList cs
end

/-- The span elements with the subline class, in document order (models
soup.find_all("span", class_="subline")). -/
def sublines (doc : Doc) : List Node :=
  docFindAllClass "span" "subline" doc

/-- The loop body of get_comment_links over the subline list, carrying
the 1-based rank counter: a subline with fewer than three anchors raises
IndexError, caught by the continue branch; a third anchor without an
href raises KeyError, which no handler in the function catches, so the
whole call raises (error); otherwise the rank maps to the base URL
prefixed onto the href. -/
def commentLinksLoop (lines : List Node) (rank : Int) :
    Except Unit (List (Int × String)) :=
  match lines with
  | [] => .ok []
  | line :: rest =>
    match (Node.findAll "a" line).get? 2 with
    | none => commentLinksLoop rest (rank + 1)
    | some a =>
      match a.attr "href" with
      | none => .error ()
      | some h =>
        (commentLinksLoop rest (rank + 1)).map
          (fun m => (rank, baseURL ++ h) :: m)

/-- Models the parsing part of get_comment_links on a parsed
document. -/
def get_comment_links_doc (doc : Doc) : Except Unit (List (Int × String)) :=
  commentLinksLoop (sublines doc) 1

/-- Models get_comment_links: requests.get(url).text is parsed whatever
the HTTP status is (no raise_for_status here); only a transport-level
RequestException is caught, yielding the empty mapping. -/
def get_comment_links (net : Net) (parse : Parse) (url : String) :
    Except Unit (List (Int × String)) :=
  match net url with
  | .response _ body => get_comment_links_doc (parse body)
  | .transportError _ => .ok []

/-- Models the parsing part of get_comments on a parsed document: a
missing comment-tree table makes find return None and the subsequent
find_all raise AttributeError, caught by the except Exception branch,
yielding []. -/
def get_comments_doc (doc : Doc) : List String :=
  match docFindClass "table" "comment-tree" doc with
  | none => []
  | some t =>
      ((t.findAllIn
        (fun n => Node.isTagB "span" n && Node.classMatch "commtext c00" n))).map
        Node.textOf

/-- Models get_comments: again no raise_for_status, so any response body
is parsed regardless of status; every exception (transport failure
included) is caught, yielding []. -/
def get_comments (net : Net) (parse : Parse) (url : String) : List String :=
  match net url with
  | .response _ body => get_comments_doc (parse body)
  | .transportError _ => []

/-- Insertion into a Python dict modelled as an association list:
assigning an existing key overwrites its value in place, a new key is
appended. -/
def dictInsert {κ α : Type} [DecidableEq κ] (d : List (κ × α)) (k : κ)
    (v : α) : List (κ × α) :=
  match d with
  | [] => [(k, v)]
  | (k', v') :: rest =>
      if k' = k then (k', v) :: rest else (k', v') :: dictInsert rest k v

/-- Python dict lookup on the association-list model. -/
def dictGet? {κ α : Type} [DecidableEq κ] (d : List (κ × α)) (k : κ) :
    Option α :=
  match d with
  | [] => none
  | (k', v) :: rest => if k' = k then some v else dictGet? rest k

/-- The keys of a dict in insertion order. -/
def dictKeys {κ α : Type} (d : List (κ × α)) : List κ :=
  d.map Prod.fst

/-- A story entry as stored by get_news under its rank key. -/
structure NewsEntry where
  title : String
  link : String
deriving Repr, DecidableEq

/-- The body of the get_news loop: a row that decodes stores its title
and link under its rank key, a row that does not is skipped. -/
def newsStep (acc : List (Int × NewsEntry)) (row : Node) :
    List (Int × NewsEntry) :=
  match parse_news_row row with
  | some p => dictInsert acc p.rank ⟨p.title, p.link⟩
  | none => acc

/-- Models get_news: fold the parsed rows through parse_news_row,
keeping the successfully decoded ones keyed by rank; the outer except
Exception catches the TypeError that extract_news_rows raises on a
failed fetch, yielding the empty dict. -/
def get_news (net : Net) (parse : Parse) (url : String) :
    List (Int × NewsEntry) :=
  match extract_news_rows parse (get_html_content net url) with
  | .error _ => []
  | .ok rows => rows.foldl newsStep []

/-- One entry of the aggregated report written by main when comments
were requested. -/
structure ReportEntry where
  title : String
  link : String
  comments : List String
deriving Repr, DecidableEq

/-- The body of the aggregation loop in main: one story entry becomes a
report entry carrying comment_dict.get(rank, []). -/
def aggStep (comments : List (Int × List String))
    (acc : List (Int × ReportEntry)) (p : Int × NewsEntry) :
    List (Int × ReportEntry) :=
  dictInsert acc p.1 ⟨p.2.title, p.2.link, (dictGet? comments p.1).getD []⟩

/-- Models the aggregation loop in main: for each story rank, in dict
order, attach the comment list under that rank, defaulting to []. -/
def aggregate (news : List (Int × NewsEntry))
    (comments : List (Int × List String)) : List (Int × ReportEntry) :=
  news.foldl (aggStep comments) []

/-- The href of the anchor parse_news_row reads: the first anchor inside
the third td cell of the row. -/
def rowHref (row : Node) : Option String :=
  match (Node.findAll "td" row).get? 2 with
  | none => none
  | some c2 =>
    match Node.find "a" c2 with
    | none => none
    | some a => a.attr "href"

/-- An absolute URL in the sense the spec uses: it names its scheme
explicitly (the two schemes this site and its story links use), stated
over the character list so that it computes on partially symbolic
strings. -/
def isAbsoluteURL (s : String) : Bool :=
  "http://".toList.isPrefixOf s.toList || "https://".toList.isPrefixOf s.toList

/-- The spec's wording for the rank text transformation: remove a
trailing period when there is one, leave the text alone otherwise. -/
def stripTrailingPeriod (s : String) : String :=
  if s.toList.getLast? = some '.' then dropLastChar s else s

/-- A td cell holding only the given text. -/
def wTd (s : String) : Node := Node.elem "td" [] [Node.text s]

/-- An anchor with the given href and the text Title. -/
def wAnchor (h : String) : Node :=
  Node.elem "a" [("href", h)] [Node.text "Title"]

/-- A story row carrying the athing class, with the given rank-cell text
and story href. -/
def wRow (rankText : String) (h : String) : Node :=
  Node.elem "tr" [("class", "athing")]
    [wTd rankText, Node.elem "td" [] [], Node.elem "td" [] [wAnchor h]]

/-- A document whose single top-level table holds two nested tables;
three table elements in all, so index 2 lands on the second nested
table. -/
def nestedDoc : Doc :=
  [Node.elem "table" [] [Node.elem "tr" [] [Node.elem "td" [] [
     Node.elem "table" [] [Node.elem "tr" [] [Node.text "A"]],
     Node.elem "table" [] [Node.elem "tr" [] [Node.text "B"]]]]]]

/-- A bare anchor with a throwaway href, used to pad sublines. -/
def wPadAnchor : Node := Node.elem "a" [("href", "x")] []

/-- A subline span whose third anchor carries the given href. -/
def wSubline (h : String) : Node :=
  Node.elem "span" [("class", "subline")]
    [wPadAnchor, wPadAnchor, Node.elem "a" [("href", h)] []]

/-- A subline span with only two anchors, as for a story with no
comments link. -/
def wSublineShort : Node :=
  Node.elem "span" [("class", "subline")] [wPadAnchor, wPadAnchor]

/-- A network oracle that always answers 404 with a fixed body. -/
def w404Net : Net := fun _ => .response 404 "body"

/-- A network oracle that always fails at the transport level. -/
def wFailNet : Net := fun _ => .transportError "connection refused"

/-- A parsing oracle that parses every body to a single subline whose
comments link is a relative item?id= href. -/
def wSubParse : Parse := fun _ => [wSubline "item?id=7"]

/-- A parsing oracle that parses every body to a comment-tree table with
one top-level comment. -/
def wCommentParse : Parse := fun _ =>
  [Node.elem "table" [("class", "comment-tree")]
    [Node.elem "span" [("class", "commtext c00")] [Node.text "hello"]]]

/-- A parsing oracle that parses every body to the empty document. -/
def wEmptyParse : Parse := fun _ => []

/-- Keys after a dict insertion: unchanged when the key was present,
the key appended when it was new. -/
lemma dictKeys_dictInsert {κ α : Type} [DecidableEq κ]
    (d : List (κ × α)) (k : κ) (v : α) :
    dictKeys (dictInsert d k v) =
      if k ∈ dictKeys d then dictKeys d else dictKeys d ++ [k] := by
  induction d with
  | nil => simp [dictInsert, dictKeys]
  | cons p rest ih =>
    obtain ⟨k', v'⟩ := p
    by_cases hk : k' = k
    · subst hk
      simp [dictInsert, dictKeys]
    · simp only [dictInsert, if_neg hk, dictKeys, List.map_cons] at ih ⊢
      rw [ih]
      by_cases hm : k ∈ List.map Prod.fst rest
      · rw [if_pos hm, if_pos (List.mem_cons_of_mem _ hm)]
      · have hnotin : k ∉ k' :: List.map Prod.fst rest := by
          intro hc
          rcases List.mem_cons.mp hc with h1 | h2
          · exact hk h1.symm
          · exact hm h2
        rw [if_neg hm, if_neg hnotin, List.cons_append]

/-- Dict insertion preserves distinctness of the keys. -/
lemma dictKeys_nodup_dictInsert {κ α : Type} [DecidableEq κ]
    (d : List (κ × α)) (k : κ) (v : α) (h : (dictKeys d).Nodup) :
    (dictKeys (dictInsert d k v)).Nodup := by
  rw [dictKeys_dictInsert]
  by_cases hm : k ∈ dictKeys d
  · rwa [if_pos hm]
  · rw [if_neg hm]
    refine List.nodup_append.mpr ⟨h, List.nodup_singleton k, ?_⟩
    intro a ha hb
    rw [List.mem_singleton] at hb
    subst hb
    exact hm ha

/-- A dict lookup misses exactly when the key is absent. -/
lemma dictGet?_eq_none_iff {κ α : Type} [DecidableEq κ]
    (d : List (κ × α)) (k : κ) :
    dictGet? d k = none ↔ k ∉ dictKeys d := by
  induction d with
  | nil => simp [dictGet?, dictKeys]
  | cons p rest ih =>
    obtain ⟨k', v'⟩ := p
    by_cases hk : k' = k
    · subst hk
      simp [dictGet?, dictKeys]
    · have hmem : k ∈ dictKeys ((k', v') :: rest) ↔ k ∈ dictKeys rest := by
        simp only [dictKeys, List.map_cons, List.mem_cons]
        constructor
        · rintro (h1 | h2)
          · exact absurd h1.symm hk
          · exact h2
        · exact fun h => Or.inr h
      simp only [dictGet?, if_neg hk]
      rw [ih]
      exact (not_congr hmem).symm

/-- Inserting a fresh key appends the pair at the end. -/
lemma dictInsert_of_not_mem {κ α : Type} [DecidableEq κ]
    (d : List (κ × α)) (k : κ) (v : α) (h : k ∉ dictKeys d) :
    dictInsert d k v = d ++ [(k, v)] := by
  induction d with
  | nil => simp [dictInsert]
  | cons p rest ih =>
    obtain ⟨k', v'⟩ := p
    simp only [dictKeys, List.map_cons, List.mem_cons] at h
    push_neg at h
    have hk : ¬ k' = k := fun hh => h.1 hh.symm
    simp only [dictInsert, if_neg hk, List.cons_append, List.cons.injEq, true_and]
    exact ih h.2

/-- On a dict with distinct keys, lookup finds the stored pair. -/
lemma dictGet?_eq_some_of_mem {κ α : Type} [DecidableEq κ]
    (d : List (κ × α)) (k : κ) (v : α) (h : (dictKeys d).Nodup)
    (hm : (k, v) ∈ d) : dictGet? d k = some v := by
  induction d with
  | nil => simp at hm
  | cons p rest ih =>
    obtain ⟨k', v'⟩ := p
    simp only [dictKeys, List.map_cons, List.nodup_cons] at h
    rcases List.mem_cons.mp hm with heq | htail
    · cases heq
      simp [dictGet?]
    · have hk : k' ≠ k := by
        intro hkk
        subst hkk
        exact h.1 (List.mem_map.mpr ⟨(k', v), htail, rfl⟩)
      simp only [dictGet?, if_neg hk]
      exact ih h.2 htail

/-- When every subline whose third anchor exists also carries an href,
the comment-links loop raises nothing. -/
lemma commentLinksLoop_ok (lines : List Node) (rank : Int)
    (H : ∀ line ∈ lines, ∀ a, (Node.findAll "a" line).get? 2 = some a →
      (a.attr "href").isSome = true) :
    ∃ m, commentLinksLoop lines rank = .ok m := by
  induction lines generalizing rank with
  | nil => exact ⟨[], rfl⟩
  | cons line rest ih =>
    have Hrest : ∀ l ∈ rest, ∀ a, (Node.findAll "a" l).get? 2 = some a →
        (a.attr "href").isSome = true :=
      fun l hl => H l (List.mem_cons_of_mem _ hl)
    obtain ⟨m', hm'⟩ := ih (rank + 1) Hrest
    cases h2 : (Node.findAll "a" line).get? 2 with
    | none =>
      refine ⟨m', ?_⟩
      simp only [commentLinksLoop, h2]
      exact hm'
    | some a =>
      have hsome := H line (List.mem_cons_self _ _) a h2
      cases hh : a.attr "href" with
      | none => rw [hh] at hsome; simp at hsome
      | some h =>
        refine ⟨(rank, baseURL ++ h) :: m', ?_⟩
        simp only [commentLinksLoop, h2, hh, hm', Except.map]

/-- Every rank key the comment-links loop produces is at least the
starting counter. -/
lemma commentLinksLoop_keys_lb (lines : List Node) (rank : Int)
    (m : List (Int × String)) (hok : commentLinksLoop lines rank = .ok m) :
    ∀ p ∈ m, rank ≤ p.1 := by
  induction lines generalizing rank m with
  | nil =>
    simp only [commentLinksLoop] at hok
    cases hok
    simp
  | cons line rest ih =>
    cases h2 : (Node.findAll "a" line).get? 2 with
    | none =>
      simp only [commentLinksLoop, h2] at hok
      intro p hp
      have := ih (rank + 1) m hok p hp
      omega
    | some a =>
      cases hh : a.attr "href" with
      | none =>
        simp only [commentLinksLoop, h2, hh] at hok
        exact (Except.noConfusion hok)
      | some h =>
        simp only [commentLinksLoop, h2, hh] at hok
        cases hr : commentLinksLoop rest (rank + 1) with
        | error e => rw [hr] at hok; simp [Except.map] at hok
        | ok m' =>
          rw [hr] at hok
          simp only [Except.map, Except.ok.injEq] at hok
          intro p hp
          rw [← hok] at hp
          rcases List.mem_cons.mp hp with rfl | htail
          · simp
          · have := ih (rank + 1) m' hr p htail
            omega

/-- A subline at position i whose third anchor carries href h makes the
loop map key rank + i to the base URL prefixed onto h. -/
lemma commentLinksLoop_lookup_hit (lines : List Node) (rank : Int) (i : Nat)
    (line a : Node) (h : String) (m : List (Int × String))
    (hline : lines.get? i = some line)
    (ha : (Node.findAll "a" line).get? 2 = some a)
    (hh : a.attr "href" = some h)
    (hok : commentLinksLoop lines rank = .ok m) :
    dictGet? m (rank + i) = some (baseURL ++ h) := by
  induction lines generalizing rank i m with
  | nil => simp at hline
  | cons line' rest ih =>
    cases i with
    | zero =>
      have hl : line' = line := by simpa using hline
      subst hl
      simp only [commentLinksLoop, ha, hh] at hok
      cases hr : commentLinksLoop rest (rank + 1) with
      | error e => rw [hr] at hok; simp [Except.map] at hok
      | ok m' =>
        rw [hr] at hok
        simp only [Except.map, Except.ok.injEq] at hok
        rw [← hok]
        simp [dictGet?]
    | succ j =>
      have hline' : rest.get? j = some line := by simpa using hline
      cases h2 : (Node.findAll "a" line').get? 2 with
      | none =>
        simp only [commentLinksLoop, h2] at hok
        have := ih (rank + 1) j m hline' hok
        have harith : rank + 1 + (j : Int) = rank + ((j : Int) + 1) := by ring
        rw [harith] at this
        simpa using this
      | some a' =>
        cases hh' : a'.attr "href" with
        | none =>
          simp only [commentLinksLoop, h2, hh'] at hok
          exact (Except.noConfusion hok)
        | some h' =>
          simp only [commentLinksLoop, h2, hh'] at hok
          cases hr : commentLinksLoop rest (rank + 1) with
          | error e => rw [hr] at hok; simp [Except.map] at hok
          | ok m' =>
            rw [hr] at hok
            simp only [Except.map, Except.ok.injEq] at hok
            rw [← hok]
            have hne : ¬ rank = rank + ((j : Int) + 1) := by omega
            have := ih (rank + 1) j m' hline' hr
            have harith : rank + 1 + (j : Int) = rank + ((j : Int) + 1) := by ring
            rw [harith] at this
            simp only [dictGet?]
            push_cast
            rw [if_neg hne]
            simpa using this

/-- A subline at position i with fewer than three anchors leaves key
rank + i out of the loop's mapping. -/
lemma commentLinksLoop_lookup_miss (lines : List Node) (rank : Int) (i : Nat)
    (line : Node) (m : List (Int × String))
    (hline : lines.get? i = some line)
    (hlt : (Node.findAll "a" line).length < 3)
    (hok : commentLinksLoop lines rank = .ok m) :
    dictGet? m (rank + i) = none := by
  induction lines generalizing rank i m with
  | nil => simp at hline
  | cons line' rest ih =>
    cases i with
    | zero =>
      have hl : line' = line := by simpa using hline
      subst hl
      have h2 : (Node.findAll "a" line').get? 2 = none :=
        List.get?_eq_none.mpr (by omega)
      simp only [commentLinksLoop, h2] at hok
      have hlb := commentLinksLoop_keys_lb rest (rank + 1) m hok
      rw [dictGet?_eq_none_iff]
      intro hmem
      obtain ⟨p, hp, hfst⟩ := List.mem_map.mp hmem
      have := hlb p hp
      omega
    | succ j =>
      have hline' : rest.get? j = some line := by simpa using hline
      cases h2 : (Node.findAll "a" line').get? 2 with
      | none =>
        simp only [commentLinksLoop, h2] at hok
        have := ih (rank + 1) j m hline' hok
        have harith : rank + 1 + (j : Int) = rank + ((j : Int) + 1) := by ring
        rw [harith] at this
        simpa using this
      | some a' =>
        cases hh' : a'.attr "href" with
        | none =>
          simp only [commentLinksLoop, h2, hh'] at hok
          exact (Except.noConfusion hok)
        | some h' =>
          simp only [commentLinksLoop, h2, hh'] at hok
          cases hr : commentLinksLoop rest (rank + 1) with
          | error e => rw [hr] at hok; simp [Except.map] at hok
          | ok m' =>
            rw [hr] at hok
            simp only [Except.map, Except.ok.injEq] at hok
            rw [← hok]
            have hne : ¬ rank = rank + ((j : Int) + 1) := by omega
            have := ih (rank + 1) j m' hline' hr
            have harith : rank + 1 + (j : Int) = rank + ((j : Int) + 1) := by ring
            rw [harith] at this
            simp only [dictGet?]
            push_cast
            rw [if_neg hne]
            simpa using this

/-- Unfolding characterisation of a successful parse_news_row: the row
has the athing class, the first td's text minus its last character
parses as an integer, and the third td's first anchor supplies title and
href, the link being the href with the base URL prefixed exactly when it
starts with item?id=. -/
lemma parse_news_row_eq_some_iff (row : Node) (rec : ParsedNews) :
    parse_news_row row = some rec ↔
    ∃ cls c0 rank c2 a href,
      row.classes = some cls ∧ "athing" ∈ cls ∧
      (Node.findAll "td" row).get? 0 = some c0 ∧
      pyInt (dropLastChar (Node.textOf c0)) = some rank ∧
      (Node.findAll "td" row).get? 2 = some c2 ∧
      Node.find "a" c2 = some a ∧
      a.attr "href" = some href ∧
      rec = ⟨rank, Node.textOf a,
        if strStartsWith "item?id=" href then baseURL ++ href else href⟩ := by
  constructor
  · intro h
    unfold parse_news_row at h
    split at h
    · exact absurd h (by simp)
    case _ cls hcls =>
      split at h
      case isTrue hin =>
        split at h
        · exact absurd h (by simp)
        case _ c0 hc0 =>
          split at h
          · exact absurd h (by simp)
          case _ rank hrank =>
            split at h
            · exact absurd h (by simp)
            case _ c2 hc2 =>
              split at h
              · exact absurd h (by simp)
              case _ a ha =>
                split at h
                · exact absurd h (by simp)
                case _ href hhref =>
                  exact ⟨cls, c0, rank, c2, a, href, hcls, hin, hc0, hrank,
                    hc2, ha, hhref, (Option.some_injective _ h).symm⟩
      case isFalse hin => exact absurd h (by simp)
  · rintro ⟨cls, c0, rank, c2, a, href, hcls, hin, hc0, hrank, hc2, ha,
      hhref, hrec⟩
    unfold parse_news_row
    rw [hcls]
    simp only [hin, if_true, hc0, hrank, hc2, ha, hhref, hrec]

/-- C1 (counterexample): a row carrying the story marker whose first cell
text is "12" — no trailing period — decodes to rank 1, because the code
drops the last character unconditionally, while the integer value of the
text with any trailing period removed is 12. -/
theorem claim1_counterexample :
    (parse_news_row (wRow "12" "https://ext.example/x")).map ParsedNews.rank
      = some 1 ∧
    Node.textOf (wTd "12") = "12" ∧
    stripTrailingPeriod "12" = "12" ∧
    pyInt "12" = some 12 ∧
    (1 : Int) ≠ 12 := by
  refine ⟨by decide, by decide, by decide, by decide, by decide⟩

/-- C1 (amended): for every row that decodes, the rank equals the integer
value of the first cell's text with its final character removed,
whatever that character is; and when that text does not parse as an
integer the decode silently returns none. -/
theorem claim1_rank_from_first_cell (row : Node) :
    (∀ rec, parse_news_row row = some rec →
      ∃ c0, (Node.findAll "td" row).get? 0 = some c0 ∧
        pyInt (dropLastChar (Node.textOf c0)) = some rec.rank) ∧
    (∀ cls c0, row.classes = some cls → "athing" ∈ cls →
      (Node.findAll "td" row).get? 0 = some c0 →
      pyInt (dropLastChar (Node.textOf c0)) = none →
      parse_news_row row = none) := by
  constructor
  · intro rec h
    obtain ⟨cls, c0, rank, c2, a, href, hcls, hin, hc0, hrank, hc2, ha, hhref,
      hrec⟩ := (parse_news_row_eq_some_iff row rec).mp h
    exact ⟨c0, hc0, by rw [hrank, hrec]⟩
  · intro cls c0 hcls hin hc0 hnone
    simp only [parse_news_row, hcls, hin, if_true, hc0, hnone]

/-- C1 (witness): on the well-formed row with rank text "7." the theorem
yields rank 7, and on the row with rank text "x." it yields none. -/
theorem claim1_witness :
    (∃ c0, (Node.findAll "td" (wRow "7." "item?id=3")).get? 0 = some c0 ∧
      pyInt (dropLastChar (Node.textOf c0)) = some ((7 : Int))) ∧
    parse_news_row (wRow "x." "item?id=3") = none := by
  constructor
  · exact (claim1_rank_from_first_cell (wRow "7." "item?id=3")).1
      ⟨7, "Title", "https://news.ycombinator.com/item?id=3"⟩ (by decide)
  · exact (claim1_rank_from_first_cell (wRow "x." "item?id=3")).2
      ["athing"] (wTd "x.") (by decide) (by decide) rfl (by decide)

/-- C2: every decoded record's link is the row's href with the base URL
prefixed exactly when the href starts with item?id=, and the href passed
through unchanged otherwise. -/
theorem claim2_link_normalization (row : Node) (rec : ParsedNews)
    (h : parse_news_row row = some rec) :
    ∃ href, rowHref row = some href ∧
      rec.link = (if strStartsWith "item?id=" href then baseURL ++ href else href) ∧
      (strStartsWith "item?id=" href = true → rec.link = baseURL ++ href) ∧
      (strStartsWith "item?id=" href = false → rec.link = href) := by
  obtain ⟨cls, c0, rank, c2, a, href, hcls, hin, hc0, hrank, hc2, ha, hhref,
    hrec⟩ := (parse_news_row_eq_some_iff row rec).mp h
  refine ⟨href, ?_, ?_, ?_, ?_⟩
  · simp only [rowHref, hc2, ha, hhref]
  · rw [hrec]
  · intro hs
    rw [hrec]
    simp [hs]
  · intro hs
    rw [hrec]
    simp [hs]

/-- C2 (witness): the relative href item?id=9 is rewritten against the
base URL, on a concrete row. -/
theorem claim2_witness :
    ∃ href, rowHref (wRow "1." "item?id=9") = some href ∧
      ("https://news.ycombinator.com/item?id=9" : String) =
        (if strStartsWith "item?id=" href then baseURL ++ href else href) ∧
      (strStartsWith "item?id=" href = true →
        ("https://news.ycombinator.com/item?id=9" : String) = baseURL ++ href) ∧
      (strStartsWith "item?id=" href = false →
        ("https://news.ycombinator.com/item?id=9" : String) = href) :=
  claim2_link_normalization (wRow "1." "item?id=9")
    ⟨1, "Title", "https://news.ycombinator.com/item?id=9"⟩ (by decide)

/-- C3 (counterexample): a story row whose anchor href is the relative
path foo.html decodes successfully and keeps that link verbatim, so the
produced link is not an absolute URL. -/
theorem claim3_counterexample :
    (parse_news_row (wRow "1." "foo.html")).map ParsedNews.link
      = some "foo.html" ∧
    isAbsoluteURL "foo.html" = false := by
  exact ⟨by decide, by decide⟩

/-- C3 (amended): the decoded link is an absolute URL whenever the row's
href either starts with item?id= (it is then rewritten against the base
URL) or is itself already absolute. -/
theorem claim3_link_absolute (row : Node) (rec : ParsedNews) (href : String)
    (h : parse_news_row row = some rec) (hh : rowHref row = some href)
    (habs : strStartsWith "item?id=" href = true ∨ isAbsoluteURL href = true) :
    isAbsoluteURL rec.link = true := by
  obtain ⟨cls, c0, rank, c2, a, href', hcls, hin, hc0, hrank, hc2, ha, hhref,
    hrec⟩ := (parse_news_row_eq_some_iff row rec).mp h
  have hrh : rowHref row = some href' := by
    simp only [rowHref, hc2, ha, hhref]
  rw [hrh] at hh
  have heq : href' = href := by injection hh
  subst heq
  have habsBase : ∀ t : String, isAbsoluteURL (baseURL ++ t) = true := fun t => rfl
  rcases habs with hs | habs
  · rw [hrec]
    simp only [hs, if_true]
    exact habsBase href'
  · rw [hrec]
    by_cases hs : strStartsWith "item?id=" href' = true
    · simp only [hs, if_true]
      exact habsBase href'
    · simp only [Bool.not_eq_true] at hs
      simp only [hs, Bool.false_eq_true, if_false]
      exact habs

/-- C3 (witness): the theorem applied to concrete rows with a relative
item?id= href and with an absolute external href. -/
theorem claim3_witness :
    isAbsoluteURL
      ((⟨1, "Title", "https://news.ycombinator.com/item?id=9"⟩ : ParsedNews).link)
      = true ∧
    isAbsoluteURL
      ((⟨1, "Title", "https://ext.example/x"⟩ : ParsedNews).link) = true := by
  constructor
  · exact claim3_link_absolute (wRow "1." "item?id=9")
      ⟨1, "Title", "https://news.ycombinator.com/item?id=9"⟩ "item?id=9"
      (by decide) (by decide) (Or.inl (by decide))
  · exact claim3_link_absolute (wRow "1." "https://ext.example/x")
      ⟨1, "Title", "https://ext.example/x"⟩ "https://ext.example/x"
      (by decide) (by decide) (Or.inr (by decide))

/-- C6: parse_news_row is total and yields none on every malformed row:
no class attribute, marker class absent, no td cell, fewer than three td
cells, no anchor in the third cell, or an anchor without an href. -/
theorem claim6_decode_never_raises (row : Node) :
    (row.attr "class" = none → parse_news_row row = none) ∧
    (∀ cls, row.classes = some cls → "athing" ∉ cls →
      parse_news_row row = none) ∧
    ((Node.findAll "td" row).get? 0 = none → parse_news_row row = none) ∧
    ((Node.findAll "td" row).get? 2 = none → parse_news_row row = none) ∧
    (∀ c2, (Node.findAll "td" row).get? 2 = some c2 →
      Node.find "a" c2 = none → parse_news_row row = none) ∧
    (∀ c2 a, (Node.findAll "td" row).get? 2 = some c2 →
      Node.find "a" c2 = some a → a.attr "href" = none →
      parse_news_row row = none) := by
  refine ⟨?_, ?_, ?_, ?_, ?_, ?_⟩
  · intro hnone
    have : row.classes = none := by simp [Node.classes, hnone]
    simp only [parse_news_row, this]
  · intro cls hcls hnotin
    simp only [parse_news_row, hcls, hnotin, if_false]
  · intro h0
    cases hcls : row.classes with
    | none => simp only [parse_news_row, hcls]
    | some cls =>
      by_cases hin : "athing" ∈ cls
      · simp only [parse_news_row, hcls, hin, if_true, h0]
      · simp only [parse_news_row, hcls, hin, if_false]
  · intro h2
    cases hcls : row.classes with
    | none => simp only [parse_news_row, hcls]
    | some cls =>
      by_cases hin : "athing" ∈ cls
      · cases h0 : (Node.findAll "td" row).get? 0 with
        | none => simp only [parse_news_row, hcls, hin, if_true, h0]
        | some c0 =>
          cases hr : pyInt (dropLastChar (Node.textOf c0)) with
          | none => simp only [parse_news_row, hcls, hin, if_true, h0, hr]
          | some rank =>
            simp only [parse_news_row, hcls, hin, if_true, h0, hr, h2]
      · simp only [parse_news_row, hcls, hin, if_false]
  · intro c2 h2 hfind
    cases hcls : row.classes with
    | none => simp only [parse_news_row, hcls]
    | some cls =>
      by_cases hin : "athing" ∈ cls
      · cases h0 : (Node.findAll "td" row).get? 0 with
        | none => simp only [parse_news_row, hcls, hin, if_true, h0]
        | some c0 =>
          cases hr : pyInt (dropLastChar (Node.textOf c0)) with
          | none => simp only [parse_news_row, hcls, hin, if_true, h0, hr]
          | some rank =>
            simp only [parse_news_row, hcls, hin, if_true, h0, hr, h2, hfind]
      · simp only [parse_news_row, hcls, hin, if_false]
  · intro c2 a h2 hfind hhref
    cases hcls : row.classes with
    | none => simp only [parse_news_row, hcls]
    | some cls =>
      by_cases hin : "athing" ∈ cls
      · cases h0 : (Node.findAll "td" row).get? 0 with
        | none => simp only [parse_news_row, hcls, hin, if_true, h0]
        | some c0 =>
          cases hr : pyInt (dropLastChar (Node.textOf c0)) with
          | none => simp only [parse_news_row, hcls, hin, if_true, h0, hr]
          | some rank =>
            simp only [parse_news_row, hcls, hin, if_true, h0, hr, h2, hfind,
              hhref]
      · simp only [parse_news_row, hcls, hin, if_false]

/-- C6 (witness): a spacer row without the story marker decodes to none,
and a row with no class attribute decodes to none. -/
theorem claim6_witness :
    parse_news_row (Node.elem "tr" [("class", "spacer")] []) = none ∧
    parse_news_row (Node.elem "tr" [] []) = none := by
  constructor
  · exact (claim6_decode_never_raises _).2.1 ["spacer"] (by decide) (by decide)
  · exact (claim6_decode_never_raises _).1 (by decide)

/-- C5 (counterexample): a document whose single top-level table holds
two nested tables has fewer than three top-level tabular regions, yet
extract_news_rows_doc returns a nonempty row sequence, because the code
indexes find_all("table"), which counts nested tables too. -/
theorem claim5_counterexample :
    (topLevelTablesList nestedDoc).length < 3 ∧
    (docFindAll "table" nestedDoc).length = 3 ∧
    (extract_news_rows_doc nestedDoc).length ≠ 0 := by
  exact ⟨by decide, by decide, by decide⟩

/-- C5 (amended): counting all tabular regions in pre-order document
order, nested ones included: with fewer than three the extractor
returns the empty sequence, with at least three it returns the tr
elements below the third, and on any parsed document it never
raises. -/
theorem claim5_extract_rows (doc : Doc) :
    ((docFindAll "table" doc).length < 3 → extract_news_rows_doc doc = []) ∧
    (∀ t, (docFindAll "table" doc).get? 2 = some t →
      extract_news_rows_doc doc = Node.findAll "tr" t) ∧
    (∀ parse s, extract_news_rows parse (some s) =
      .ok (extract_news_rows_doc (parse s))) := by
  refine ⟨?_, ?_, ?_⟩
  · intro hlt
    have h2 : (docFindAll "table" doc).get? 2 = none :=
      List.get?_eq_none.mpr (by omega)
    simp only [extract_news_rows_doc, h2]
  · intro t ht
    simp only [extract_news_rows_doc, ht]
  · intro parse s
    rfl

/-- C5 (witness): the empty document has no tables and extracts no rows,
and parsing any body never raises. -/
theorem claim5_witness :
    extract_news_rows_doc [] = [] ∧
    extract_news_rows wEmptyParse (some "body") =
      .ok (extract_news_rows_doc (wEmptyParse "body")) := by
  constructor
  · exact (claim5_extract_rows []).1 (by decide)
  · exact (claim5_extract_rows []).2.2 wEmptyParse "body"

/-- Folding the aggregation step over stories with distinct ranks,
starting from a dict disjoint from them, appends one report entry per
story in order. -/
lemma aggregate_foldl_eq (comments : List (Int × List String))
    (news : List (Int × NewsEntry)) (acc : List (Int × ReportEntry))
    (hdis : ∀ r ∈ dictKeys news, r ∉ dictKeys acc)
    (hnd : (dictKeys news).Nodup) :
    news.foldl (aggStep comments) acc =
      acc ++ news.map (fun p =>
        (p.1, ⟨p.2.title, p.2.link, (dictGet? comments p.1).getD []⟩)) := by
  induction news generalizing acc with
  | nil => simp
  | cons p rest ih =>
    obtain ⟨r, e⟩ := p
    simp only [List.foldl_cons]
    have hr : r ∉ dictKeys acc := hdis r (by simp [dictKeys])
    have hstep : aggStep comments acc (r, e) =
        acc ++ [(r, ⟨e.title, e.link, (dictGet? comments r).getD []⟩)] :=
      dictInsert_of_not_mem acc r _ hr
    rw [hstep]
    have hnd' : (dictKeys rest).Nodup := by
      simp only [dictKeys, List.map_cons, List.nodup_cons] at hnd
      exact hnd.2
    have hrmem : r ∉ dictKeys rest := by
      simp only [dictKeys, List.map_cons, List.nodup_cons] at hnd
      exact hnd.1
    have hdis' : ∀ a ∈ dictKeys rest,
        a ∉ dictKeys (acc ++ [(r, (⟨e.title, e.link,
          (dictGet? comments r).getD []⟩ : ReportEntry))]) := by
      intro a ha hc
      simp only [dictKeys, List.map_append, List.mem_append, List.map_cons,
        List.map_nil, List.mem_singleton] at hc
      rcases hc with hc | hc
      · refine hdis a ?_ hc
        simp only [dictKeys, List.map_cons]
        exact List.mem_cons_of_mem _ ha
      · exact hrmem (hc ▸ ha)
    rw [ih _ hdis' hnd']
    simp

/-- C8: the aggregated report is keyed exactly by the story ranks (ranks
present only in the comments mapping are dropped), each entry carries
the comment list looked up under its rank with [] as default, and
re-running aggregation on the same inputs yields the identical
report. -/
theorem claim8_aggregate (news : List (Int × NewsEntry))
    (comments : List (Int × List String))
    (h : (dictKeys news).Nodup) :
    dictKeys (aggregate news comments) = dictKeys news ∧
    (∀ r e, (r, e) ∈ news → dictGet? (aggregate news comments) r =
      some ⟨e.title, e.link, (dictGet? comments r).getD []⟩) ∧
    (∀ r, r ∉ dictKeys news → dictGet? (aggregate news comments) r = none) ∧
    aggregate news comments = aggregate news comments := by
  have hmap : aggregate news comments = news.map (fun p =>
      (p.1, ⟨p.2.title, p.2.link, (dictGet? comments p.1).getD []⟩)) := by
    have := aggregate_foldl_eq comments news [] (by simp [dictKeys]) h
    simpa [aggregate] using this
  have hkeys : dictKeys (aggregate news comments) = dictKeys news := by
    rw [hmap]
    simp only [dictKeys, List.map_map]
    rfl
  refine ⟨hkeys, ?_, ?_, rfl⟩
  · intro r e hm
    apply dictGet?_eq_some_of_mem
    · rw [hkeys]
      exact h
    · rw [hmap]
      exact List.mem_map.mpr ⟨(r, e), hm, rfl⟩
  · intro r hr
    rw [dictGet?_eq_none_iff, hkeys]
    exact hr

/-- C8 (witness): aggregating one story with an unrelated comment rank
keeps only the story rank with an empty comment list. -/
theorem claim8_witness :
    dictKeys (aggregate [(1, ⟨"A", "l"⟩)] [(2, ["c"])]) = [1] ∧
    dictGet? (aggregate [(1, ⟨"A", "l"⟩)] [(2, ["c"])]) 1 =
      some ⟨"A", "l", []⟩ ∧
    dictGet? (aggregate [(1, ⟨"A", "l"⟩)] [(2, ["c"])]) 2 = none := by
  have h := claim8_aggregate [(1, ⟨"A", "l"⟩)] [(2, ["c"])] (by decide)
  refine ⟨h.1, ?_, ?_⟩
  · have := h.2.1 1 ⟨"A", "l"⟩ (by simp)
    simpa using this
  · exact h.2.2.1 2 (by decide)

/-- Folding rows through the news step keeps the rank keys distinct. -/
lemma newsFold_keys_nodup (rows : List Node) (acc : List (Int × NewsEntry))
    (h : (dictKeys acc).Nodup) :
    (dictKeys (rows.foldl newsStep acc)).Nodup := by
  induction rows generalizing acc with
  | nil => simpa
  | cons row rest ih =>
    simp only [List.foldl_cons]
    apply ih
    rcases hp : parse_news_row row with _ | p
    · simpa [newsStep, hp]
    · simp only [newsStep, hp]
      exact dictKeys_nodup_dictInsert acc p.rank _ h

/-- C9: get_news is a total function into rank-keyed dicts: its keys are
always distinct, and on a failed or non-success listing fetch it
degrades to the empty dict. -/
theorem claim9_get_news_total (net : Net) (parse : Parse) (url : String) :
    (dictKeys (get_news net parse url)).Nodup ∧
    (get_html_content net url = none → get_news net parse url = []) := by
  constructor
  · unfold get_news
    cases hex : extract_news_rows parse (get_html_content net url) with
    | error e => simp [dictKeys]
    | ok rows => exact newsFold_keys_nodup rows [] (by simp [dictKeys])
  · intro hnone
    simp [get_news, hnone, extract_news_rows]

/-- C9 (witness): with a transport-failing network oracle the keys are
trivially distinct and the result is the empty dict. -/
theorem claim9_witness :
    (dictKeys (get_news wFailNet wEmptyParse "u")).Nodup ∧
    get_news wFailNet wEmptyParse "u" = [] := by
  have h := claim9_get_news_total wFailNet wEmptyParse "u"
  exact ⟨h.1, h.2 rfl⟩

/-- C4 (counterexample): one and the same 404 response is treated as a
fetch failure by the listing fetch, but the comment-link fetch parses
its body as a normal document and yields a nonempty mapping, and the
comment-thread fetch parses its body and yields a comment. -/
theorem claim4_counterexample :
    (400 ≤ 404 ∧ 404 < 600) ∧
    get_html_content w404Net "u" = none ∧
    get_comment_links w404Net wSubParse "u" =
      .ok [(1, baseURL ++ "item?id=7")] ∧
    get_comments w404Net wCommentParse "u" = ["hello"] := by
  exact ⟨by omega, rfl, rfl, rfl⟩

/-- C4 (amended): the listing fetch treats transport failures and
4xx/5xx statuses as absent; the comment-link and comment-thread fetches
treat only transport failures as absent and parse the body of any
response, whatever its status. -/
theorem claim4_fetch_failure_handling (net : Net) (parse : Parse)
    (url : String) :
    (∀ status body, net url = .response status body → 400 ≤ status →
      status < 600 → get_html_content net url = none) ∧
    (∀ msg, net url = .transportError msg →
      get_html_content net url = none ∧
      get_comment_links net parse url = .ok [] ∧
      get_comments net parse url = []) ∧
    (∀ status body, net url = .response status body →
      get_comment_links net parse url = get_comment_links_doc (parse body) ∧
      get_comments net parse url = get_comments_doc (parse body)) := by
  refine ⟨?_, ?_, ?_⟩
  · intro status body hnet h1 h2
    simp [get_html_content, hnet, h1, h2]
  · intro msg hnet
    exact ⟨by simp [get_html_content, hnet], by simp [get_comment_links, hnet],
      by simp [get_comments, hnet]⟩
  · intro status body hnet
    exact ⟨by simp [get_comment_links, hnet], by simp [get_comments, hnet]⟩

/-- C4 (witness): the theorem applied to the 404 oracle and to the
transport-failure oracle. -/
theorem claim4_witness :
    get_html_content w404Net "u" = none ∧
    (get_html_content wFailNet "u" = none ∧
      get_comment_links wFailNet wEmptyParse "u" = .ok [] ∧
      get_comments wFailNet wEmptyParse "u" = []) := by
  constructor
  · exact (claim4_fetch_failure_handling w404Net wEmptyParse "u").1 404 "body"
      rfl (by omega) (by omega)
  · exact (claim4_fetch_failure_handling wFailNet wEmptyParse "u").2.1
      "connection refused" rfl

/-- C7: when every subline's third anchor (where present) carries an
href, the comment locator returns a mapping in which the 1-based rank of
each subline with at least three anchors maps to the third anchor's href
with the base URL prefixed, and the rank of each subline with fewer than
three anchors is absent. -/
theorem claim7_comment_links (doc : Doc)
    (H : ∀ line ∈ sublines doc, ∀ a,
      (Node.findAll "a" line).get? 2 = some a →
      (a.attr "href").isSome = true) :
    ∃ m, get_comment_links_doc doc = .ok m ∧
      (∀ i line a h, (sublines doc).get? i = some line →
        (Node.findAll "a" line).get? 2 = some a → a.attr "href" = some h →
        dictGet? m (1 + (i : Int)) = some (baseURL ++ h)) ∧
      (∀ i line, (sublines doc).get? i = some line →
        (Node.findAll "a" line).length < 3 →
        dictGet? m (1 + (i : Int)) = none) := by
  obtain ⟨m, hm⟩ := commentLinksLoop_ok (sublines doc) 1 H
  refine ⟨m, hm, ?_, ?_⟩
  · intro i line a h hline ha hh
    exact commentLinksLoop_lookup_hit (sublines doc) 1 i line a h m
      hline ha hh hm
  · intro i line hline hlt
    exact commentLinksLoop_lookup_miss (sublines doc) 1 i line m
      hline hlt hm

/-- C7 (witness): on a document with a three-anchor subline followed by
a two-anchor subline, rank 1 maps to the prefixed href and rank 2 is
absent. -/
theorem claim7_witness :
    ∃ m, get_comment_links_doc [wSubline "item?id=5", wSublineShort] = .ok m ∧
      dictGet? m 1 = some (baseURL ++ "item?id=5") ∧
      dictGet? m 2 = none := by
  have H : ∀ line ∈ sublines [wSubline "item?id=5", wSublineShort], ∀ a,
      (Node.findAll "a" line).get? 2 = some a →
      (a.attr "href").isSome = true := by
    intro line hline a ha
    have hs : sublines [wSubline "item?id=5", wSublineShort] =
        [wSubline "item?id=5", wSublineShort] := rfl
    rw [hs] at hline
    rcases List.mem_cons.mp hline with rfl | hline2
    · rw [show (Node.findAll "a" (wSubline "item?id=5")).get? 2 =
          some (Node.elem "a" [("href", "item?id=5")] []) from rfl] at ha
      cases ha
      rfl
    · rcases List.mem_cons.mp hline2 with rfl | hline3
      · rw [show (Node.findAll "a" wSublineShort).get? 2 = none from rfl] at ha
        exact Option.noConfusion ha
      · simp at hline3
  obtain ⟨m, hok, hhit, hmiss⟩ :=
    claim7_comment_links [wSubline "item?id=5", wSublineShort] H
  refine ⟨m, hok, ?_, ?_⟩
  · have := hhit 0 (wSubline "item?id=5")
      (Node.elem "a" [("href", "item?id=5")] []) "item?id=5" rfl rfl rfl
    simpa using this
  · have := hmiss 1 wSublineShort rfl (by decide)
    simpa using this

/-- C10: the comment locator prefixes the base URL onto the third
anchor's href unconditionally — for every href string, including one
that is already an absolute URL, the mapped value is the base URL
concatenated with it. -/
theorem claim10_unconditional_base_prefix :
    (∀ h : String,
      get_comment_links_doc [wSubline h] = .ok [(1, baseURL ++ h)]) ∧
    get_comment_links_doc [wSubline "https://example.com/story"] =
      .ok [(1, "https://news.ycombinator.com/https://example.com/story")] ∧
    isAbsoluteURL "https://example.com/story" = true ∧
    strStartsWith "item?id=" "https://example.com/story" = false := by
  refine ⟨fun h => rfl, rfl, by decide, by decide⟩
